import Mathlib

/-
Verification of the memory lifecycle subsystem of the KhinsLLM repository
(src/agent.py): the per-user memory log, its append path (`add_memory`),
the compaction path (`summarize_old_memories`), the context read path
(`get_memory_summary`) and the persistence load path (`load_memory_file`).

Modelling conventions:
- A memory entry dict {"text": ..., "timestamp": ...} becomes the structure
  `MemEntry`.  Timestamps in the code are ISO-8601 UTC strings produced by
  datetime.utcnow().isoformat(); their lexicographic order agrees with
  chronological order, so they are modelled as `Nat`.
- The external mem0 client is an opaque collaborator.  Its `summarize`
  call either returns a string or raises; it is modelled as a function
  `String → Option String` (`none` = the call raised).  A missing client
  (`mem0 is None` in the code) is the constructor `unavailable`.
- Each call of `add_memory` reads the clock twice (once for the appended
  entry, once more inside `summarize_old_memories` if compaction runs),
  so the model takes two timestamps `tAppend` and `tCompact`.
- Python slices `log[:-20]` and `log[-20:]` become `List.take (len - 20)`
  and `List.drop (len - 20)`; truncated `Nat` subtraction gives exactly
  the Python semantics for short lists.
- Python's `sep.join(parts)` becomes `pyJoin`.
-/

namespace KhinsLLM

/-- One entry of a user's memory log: agent.py lines 114-117 append a dict
with a "text" and a "timestamp" field. -/
structure MemEntry where
  text : String
  timestamp : Nat
deriving DecidableEq

/-- The single configured user identity, agent.py line 75. -/
def user_name : String := "Kinga"

/-- State of the optional remote mem0 collaborator.  `unavailable` is
`mem0 is None` (import failed, agent.py lines 27-32, 79-82); `available f`
is a live client whose `summarize` call returns `some s` on success and
`none` when it raises (agent.py lines 129-134). -/
inductive Mem0Client where
  | unavailable : Mem0Client
  | available (f : String → Option String) : Mem0Client

/-- Python's `sep.join(parts)`. -/
def pyJoin (sep : String) : List String → String
  | [] => ""
  | [x] => x
  | x :: y :: xs => x ++ sep ++ pyJoin sep (y :: xs)

/-- The "old" partition of a log about to be compacted:
`persistent_memories[user_id][:-20]`, agent.py line 126. -/
def old_part (log : List MemEntry) : List MemEntry :=
  log.take (log.length - 20)

/-- The "recent" partition kept by compaction:
`persistent_memories[user_id][-20:]`, agent.py line 141. -/
def recent_part (log : List MemEntry) : List MemEntry :=
  log.drop (log.length - 20)

/-- The space-joined text of the old partition handed to the summarizer:
`" ".join([m["text"] for m in old_memories])`, agent.py line 127. -/
def combined_text (log : List MemEntry) : String :=
  pyJoin " " ((old_part log).map (fun m => m.text))

/-- Compaction, agent.py lines 125-143 (`summarize_old_memories`).
The summary string comes from `mem0.summarize` when the client exists and
the call succeeds; the except branch (line 134) substitutes
" (failed to summarize older memories) "; the `else` branch (line 137)
substitutes "Past conversations and interactions".  The log is replaced by
one synthetic entry stamped `now` (the second clock read, line 140)
followed by the last 20 entries. -/
def summarize_old_memories (mem0 : Mem0Client) (now : Nat)
    (log : List MemEntry) : List MemEntry :=
  let summary : String :=
    match mem0 with
    | .available f =>
        match f (combined_text log) with
        | some s => s
        | none => " (failed to summarize older memories) "
    | .unavailable => "Past conversations and interactions"
  { text := "Summary of past: " ++ summary, timestamp := now } :: recent_part log

/-- The append path, agent.py lines 102-123 (`add_memory`), restricted to
the local log of the single user (the best-effort `mem0.add` forwarding
does not touch the local log).  The entry is appended (lines 114-117);
if the new length exceeds 50, compaction runs (lines 119-120); the
returned list is the state of this user's log at the moment
`save_memory_file` is called (line 122). -/
def add_memory (mem0 : Mem0Client) (log : List MemEntry) (text : String)
    (tAppend tCompact : Nat) : List MemEntry :=
  let log2 := log ++ [{ text := text, timestamp := tAppend }]
  if log2.length > 50 then summarize_old_memories mem0 tCompact log2 else log2

/-- A sequence of `add_memory` calls; each item carries the text and the
two clock readings of that call. -/
def appendAll (mem0 : Mem0Client) (log : List MemEntry) :
    List (String × Nat × Nat) → List MemEntry
  | [] => log
  | (t, a, c) :: rest => appendAll mem0 (add_memory mem0 log t a c) rest

/-- The read path, agent.py lines 145-150 (`get_memory_summary`).
The state argument models the global `persistent_memories` dict;
`persistent_memories.get(user_name, [])` is `lookup` with default `[]`,
`file_memories[-5:]` is `drop (length - 5)`, and the sentinel and the
newline join with the "- " marker are lines 149-150. -/
def get_memory_summary (persistent_memories : List (String × List MemEntry)) :
    String :=
  let file_memories := (persistent_memories.lookup user_name).getD []
  let recent := (file_memories.drop (file_memories.length - 5)).map
    (fun m => m.text)
  if recent.isEmpty then "No past memories yet."
  else pyJoin "\n" (recent.map (fun m => "- " ++ m))

/-- Number of lines of a string: one more than the number of newline
characters it holds. -/
def lineCount (s : String) : Nat := s.data.count '\n' + 1

/-- Boolean test that `p` is an initial segment of `l`. -/
def leadsWith : List Char → List Char → Bool
  | [], _ => true
  | _ :: _, [] => false
  | a :: as, b :: bs => a == b && leadsWith as bs

/-- Boolean test that string `s` begins with `pat`. -/
def strStartsWith (s pat : String) : Bool := leadsWith pat.data s.data

/-- Boolean test that `pat` occurs as a contiguous substring of `s`. -/
def strContainsSub (s pat : String) : Bool :=
  (List.range (s.data.length + 1)).any (fun i => leadsWith pat.data (s.data.drop i))

/-- Timestamps of a log are monotonically non-decreasing from the first
entry to the last (ties permitted). -/
def tsMonotone (log : List MemEntry) : Prop :=
  log.Pairwise (fun a b => a.timestamp ≤ b.timestamp)

instance (log : List MemEntry) : Decidable (tsMonotone log) := by
  unfold tsMonotone
  infer_instance

/-- A JSON value, the possible result of `json.load`. -/
inductive PyJson where
  | obj (fields : List (String × PyJson))
  | arr (items : List PyJson)
  | str (s : String)
  | num (n : Int)
  | boolean (b : Bool)
  | null

/-- Outcome of opening and json-parsing an existing memory file:
`json.load` either returns a JSON value, raises `json.JSONDecodeError`
on syntactically invalid JSON, or raises some other exception (for
example `UnicodeDecodeError` on bytes that do not decode as text). -/
inductive ParseOutcome where
  | ok (v : PyJson)
  | jsonDecodeError
  | otherError

/-- The memory file on disk: absent, or present with a given read-and-parse
outcome. -/
inductive FileState where
  | missing
  | content (p : ParseOutcome)

/-- The load path, agent.py lines 84-91 (`load_memory_file`): a missing
file yields `{}` (line 91); `json.JSONDecodeError` is caught and yields
`{}` (lines 89-90); any other exception raised by the read is not caught
and propagates (modelled as `Except.error`); a successfully parsed JSON
value of any shape is returned as-is (line 88). -/
def load_memory_file : FileState → Except Unit PyJson
  | .missing => .ok (.obj [])
  | .content (.ok v) => .ok v
  | .content .jsonDecodeError => .ok (.obj [])
  | .content .otherError => .error ()

/-- The 51 appends "m0".."m50" at clock readings 0..50 (both clock reads of
each call coincide). -/
def run51items : List (String × Nat × Nat) :=
  (List.range 51).map (fun i => ("m" ++ toString i, i, i))

/-- The first 50 of those appends. -/
def items50 : List (String × Nat × Nat) :=
  (List.range 50).map (fun i => ("m" ++ toString i, i, i))

/-- The log produced by appending "m0".."m50" at times 0..50 to an
initially empty log, for a given mem0 client state. -/
def run51gen (mem0 : Mem0Client) : List MemEntry :=
  appendAll mem0 [] run51items

/-- The 51 entries "m0".."m50" as they stand right after the 51st append,
just before compaction replaces them. -/
def entries51 : List MemEntry :=
  run51items.map (fun p => { text := p.1, timestamp := p.2.1 })

/-- A concrete 51-entry log whose head is a synthetic summary entry left by
an earlier compaction. -/
def c10log : List MemEntry :=
  { text := "Summary of past: earlier", timestamp := 0 } ::
    (List.range 50).map (fun i => { text := "t" ++ toString i, timestamp := i + 1 })

/-- A concrete 50-entry log. -/
def log50 : List MemEntry :=
  (List.range 50).map (fun i => { text := "t" ++ toString i, timestamp := i })

/-! Helper lemmas shared by several results. -/

theorem pyJoin_cons_ex (sep x : String) (xs : List String) :
    ∃ s, pyJoin sep (x :: xs) = x ++ s := by
  cases xs with
  | nil => exact ⟨"", by simp [pyJoin]⟩
  | cons y ys =>
      exact ⟨sep ++ pyJoin sep (y :: ys), by simp [pyJoin, String.append_assoc]⟩

theorem count_newline_pyJoin (l : List String)
    (h : ∀ s ∈ l, s.data.count '\n' = 0) :
    (pyJoin "\n" l).data.count '\n' = l.length - 1 := by
  induction l with
  | nil => decide
  | cons x xs ih =>
      cases xs with
      | nil => simpa [pyJoin] using h x (by simp)
      | cons y ys =>
          have hx := h x (by simp)
          have ihr := ih (fun s hs => h s (by simp [hs]))
          show (x ++ "\n" ++ pyJoin "\n" (y :: ys)).data.count '\n' =
            (x :: y :: ys).length - 1
          rw [String.data_append, String.data_append, List.count_append,
            List.count_append, hx, ihr]
          have hnl : ("\n" : String).data.count '\n' = 1 := by decide
          rw [hnl]
          simp
          omega

theorem leadsWith_refl : ∀ l : List Char, leadsWith l l = true
  | [] => rfl
  | a :: as => by simp [leadsWith, leadsWith_refl as]

theorem leadsWith_append :
    ∀ (p a : List Char), leadsWith p a = true →
      ∀ b : List Char, leadsWith p (a ++ b) = true
  | [], _, _, _ => rfl
  | _ :: _, [], h, _ => by cases h
  | x :: ps, y :: as, h, b => by
      simp only [leadsWith, Bool.and_eq_true, beq_iff_eq] at h
      simp only [List.cons_append, leadsWith, Bool.and_eq_true, beq_iff_eq]
      exact ⟨h.1, leadsWith_append ps as h.2 b⟩

theorem strStartsWith_append_left (a b p : String)
    (h : strStartsWith a p = true) : strStartsWith (a ++ b) p = true := by
  unfold strStartsWith at h ⊢
  rw [String.data_append]
  exact leadsWith_append p.data a.data h b.data

theorem strContainsSub_append_right (a b : String) :
    strContainsSub (a ++ b) b = true := by
  unfold strContainsSub
  rw [List.any_eq_true]
  refine ⟨a.data.length, ?_, ?_⟩
  · rw [List.mem_range, String.data_append, List.length_append]
    omega
  · rw [String.data_append, List.drop_left]
    exact leadsWith_refl b.data

theorem summarize_length (mem0 : Mem0Client) (now : Nat) (log : List MemEntry) :
    (summarize_old_memories mem0 now log).length =
      log.length - (log.length - 20) + 1 := by
  simp [summarize_old_memories, recent_part, List.length_drop]

theorem add_memory_small (mem0 : Mem0Client) (log : List MemEntry)
    (text : String) (a c : Nat) (h : log.length + 1 ≤ 50) :
    add_memory mem0 log text a c = log ++ [{ text := text, timestamp := a }] := by
  simp only [add_memory]
  rw [if_neg]
  simp only [List.length_append, List.length_cons, List.length_nil]
  omega

theorem add_memory_length (mem0 : Mem0Client) (log : List MemEntry)
    (text : String) (a c : Nat) :
    (add_memory mem0 log text a c).length =
      if 50 < log.length + 1 then 21 else log.length + 1 := by
  simp only [add_memory]
  split
  · next h =>
      rw [summarize_length]
      simp only [List.length_append, List.length_cons, List.length_nil] at h ⊢
      rw [if_pos (by omega)]
      omega
  · next h =>
      simp only [List.length_append, List.length_cons, List.length_nil] at h ⊢
      rw [if_neg (by omega)]

theorem appendAll_append (mem0 : Mem0Client) :
    ∀ (xs ys : List (String × Nat × Nat)) (log : List MemEntry),
      appendAll mem0 log (xs ++ ys) = appendAll mem0 (appendAll mem0 log xs) ys
  | [], _, _ => rfl
  | (t, a, c) :: xs, ys, log => by
      simp only [List.cons_append, appendAll]
      exact appendAll_append mem0 xs ys _

theorem appendAll_no_compaction (mem0 : Mem0Client) :
    ∀ (items : List (String × Nat × Nat)) (log : List MemEntry),
      log.length + items.length ≤ 50 →
      appendAll mem0 log items =
        log ++ items.map (fun p => { text := p.1, timestamp := p.2.1 })
  | [], log, _ => by simp [appendAll]
  | (t, a, c) :: items, log, h => by
      simp only [List.length_cons] at h
      simp only [appendAll]
      rw [add_memory_small mem0 log t a c (by omega)]
      rw [appendAll_no_compaction mem0 items _
        (by simp only [List.length_append, List.length_cons, List.length_nil]; omega)]
      simp

theorem strStartsWith_summary (s : String) :
    strStartsWith ("Summary of past: " ++ s) "Summary of past:" = true := by
  apply strStartsWith_append_left
  decide

set_option maxRecDepth 40000

/-- C1: appending the 51 texts "m0".."m50" (at clock readings 0..50) to an
initially empty log leaves exactly 21 entries: entry 0's text starts with
"Summary of past:", and entries 1..20 are "m31".."m50" in that order with
their original timestamps 31..50. -/
theorem compaction_after_51_appends (mem0 : Mem0Client) :
    (run51gen mem0).length = 21 ∧
    (run51gen mem0).head?.map
      (fun e => strStartsWith e.text "Summary of past:") = some true ∧
    (run51gen mem0).drop 1 =
      (List.range 20).map
        (fun i => { text := "m" ++ toString (31 + i), timestamp := 31 + i }) := by
  have hsplit : run51items = items50 ++ [("m50", (50 : Nat), (50 : Nat))] := by
    decide
  have key : run51gen mem0 = summarize_old_memories mem0 50 entries51 := by
    unfold run51gen
    rw [hsplit, appendAll_append,
      appendAll_no_compaction mem0 items50 [] (by decide)]
    simp only [appendAll, add_memory]
    split
    · congr 1
    · next hb => exact absurd (by decide) hb
  refine ⟨?_, ?_, ?_⟩
  · rw [key, summarize_length]
    decide
  · rw [key]
    simp only [summarize_old_memories, List.head?_cons, Option.map_some']
    rw [strStartsWith_summary]
  · rw [key]
    simp only [summarize_old_memories, List.drop_succ_cons, List.drop_zero]
    decide

/-- C2 counterexample: with a live mem0 client whose summarize call fails,
the 51st append compacts and produces a summary entry whose text does NOT
contain the fixed fallback string "Past conversations and interactions"
(it contains the other fallback, " (failed to summarize older memories) "),
so the two failure modes do not share one fixed fallback. -/
theorem compaction_fallback_counterexample :
    (run51gen (.available (fun _ => none))).head?.map
      (fun e => strContainsSub e.text "Past conversations and interactions") =
      some false := by
  decide

/-- C2 amended: compaction always completes with a synthetic summary entry
at the head; when the remote summarizer is unavailable its text contains
the fallback "Past conversations and interactions", and when it is
available but its call fails the text contains the different fallback
" (failed to summarize older memories) ". -/
theorem compaction_fallback_texts (now : Nat) (log : List MemEntry) :
    (∃ e tl, summarize_old_memories .unavailable now log = e :: tl ∧
        strContainsSub e.text "Past conversations and interactions" = true) ∧
    (∀ f : String → Option String, f (combined_text log) = none →
        ∃ e tl, summarize_old_memories (.available f) now log = e :: tl ∧
          strContainsSub e.text " (failed to summarize older memories) " = true) := by
  constructor
  · refine ⟨MemEntry.mk ("Summary of past: " ++ "Past conversations and interactions") now, recent_part log, rfl, ?_⟩
    exact strContainsSub_append_right "Summary of past: "
      "Past conversations and interactions"
  · intro f hf
    refine ⟨MemEntry.mk ("Summary of past: " ++ " (failed to summarize older memories) ") now, recent_part log, ?_, ?_⟩
    · simp only [summarize_old_memories, hf]
    · exact strContainsSub_append_right "Summary of past: "
        " (failed to summarize older memories) "

/-- C2 amended, witness at a concrete input (clock 7, empty old log). -/
theorem compaction_fallback_texts_witness :
    (∃ e tl, summarize_old_memories .unavailable 7 [] = e :: tl ∧
        strContainsSub e.text "Past conversations and interactions" = true) ∧
    (∃ e tl, summarize_old_memories (.available (fun _ => none)) 7 [] = e :: tl ∧
        strContainsSub e.text " (failed to summarize older memories) " = true) :=
  ⟨(compaction_fallback_texts 7 []).1,
   (compaction_fallback_texts 7 []).2 (fun _ => none) rfl⟩

/-- C3 counterexample: the log obtained by appending "m0".."m50" at strictly
increasing clock readings 0..50 has been compacted, and its timestamps are
not monotonically non-decreasing: the synthetic summary entry at index 0
is stamped with the compaction time 50, which is later than timestamp 31
of the entry that follows it. -/
theorem timestamps_not_monotone_after_compaction :
    ¬ tsMonotone (run51gen .unavailable) := by
  decide

/-- C3 amended: a compacted log is monotone only from index 1 on: the
retained recent entries keep the original non-decreasing order, while the
synthetic summary entry at index 0 is stamped with the compaction time,
which is greater than or equal to (not less than or equal to) every
retained entry's timestamp. -/
theorem compacted_log_timestamp_structure (mem0 : Mem0Client) (now : Nat)
    (log : List MemEntry) (hub : ∀ m ∈ log, m.timestamp ≤ now)
    (hmono : tsMonotone log) :
    tsMonotone ((summarize_old_memories mem0 now log).tail) ∧
    (∀ m ∈ (summarize_old_memories mem0 now log).tail, m.timestamp ≤ now) ∧
    (summarize_old_memories mem0 now log).head?.map (fun e => e.timestamp) =
      some now := by
  have htail : (summarize_old_memories mem0 now log).tail = recent_part log := rfl
  refine ⟨?_, ?_, rfl⟩
  · rw [htail]
    exact hmono.sublist (List.drop_sublist _ _)
  · rw [htail]
    intro m hm
    exact hub m ((List.drop_sublist _ _).mem hm)

/-- C3 amended, witness at a concrete two-entry log compacted at time 5. -/
theorem compacted_log_timestamp_structure_witness :
    tsMonotone ((summarize_old_memories .unavailable 5
      [({ text := "a", timestamp := 1 } : MemEntry),
       { text := "b", timestamp := 2 }]).tail) ∧
    (∀ m ∈ (summarize_old_memories .unavailable 5
      [({ text := "a", timestamp := 1 } : MemEntry),
       { text := "b", timestamp := 2 }]).tail, m.timestamp ≤ 5) ∧
    (summarize_old_memories .unavailable 5
      [({ text := "a", timestamp := 1 } : MemEntry),
       { text := "b", timestamp := 2 }]).head?.map (fun e => e.timestamp) =
      some 5 :=
  compacted_log_timestamp_structure .unavailable 5
    [{ text := "a", timestamp := 1 }, { text := "b", timestamp := 2 }]
    (by decide) (by decide)

/-- C4 counterexample: a single stored entry whose text holds embedded
newline characters makes the context string exceed 5 lines (here 6), so
the 5-line bound fails for arbitrary entry texts. -/
theorem context_line_bound_counterexample :
    ¬ lineCount (get_memory_summary
      [(user_name, [{ text := "a\nb\nc\nd\ne\nf", timestamp := 0 }])]) ≤ 5 := by
  decide

/-- C4 amended: the context string built by the read path consists of at
most 5 lines provided no stored entry text of the user's log contains a
newline character (the read path renders at most the last 5 entries, one
per line, or the one-line sentinel). -/
theorem context_line_bound (st : List (String × List MemEntry))
    (h : ∀ m ∈ (st.lookup user_name).getD [], m.text.data.count '\n' = 0) :
    lineCount (get_memory_summary st) ≤ 5 := by
  simp only [get_memory_summary]
  split
  · decide
  · unfold lineCount
    rw [count_newline_pyJoin]
    · simp only [List.length_map, List.length_drop]
      omega
    · intro s hs
      simp only [List.mem_map] at hs
      obtain ⟨t, ⟨m, hm, rfl⟩, rfl⟩ := hs
      rw [String.data_append, List.count_append, h m ((List.drop_sublist _ _).mem hm)]
      decide

/-- C4 amended, witness at a concrete one-entry state. -/
theorem context_line_bound_witness :
    lineCount (get_memory_summary
      [(user_name, [{ text := "hello", timestamp := 0 }])]) ≤ 5 :=
  context_line_bound [(user_name, [{ text := "hello", timestamp := 0 }])]
    (by decide)

/-- C5: the log handed to the persistence write at the end of every append
has length at most 50, and exactly 21 when the append pushed the length
past 50 (compaction runs synchronously before the write). -/
theorem persisted_length_bounded (mem0 : Mem0Client) (log : List MemEntry)
    (text : String) (a c : Nat) :
    (add_memory mem0 log text a c).length ≤ 50 ∧
    (50 < log.length + 1 → (add_memory mem0 log text a c).length = 21) := by
  refine ⟨?_, fun h => ?_⟩
  · rw [add_memory_length]
    split <;> omega
  · rw [add_memory_length, if_pos h]

/-- C5, witness: appending to a concrete 50-entry log compacts to 21, which
is at most 50. -/
theorem persisted_length_bounded_witness :
    (add_memory .unavailable log50 "x" 7 8).length ≤ 50 ∧
    (add_memory .unavailable log50 "x" 7 8).length = 21 :=
  ⟨(persisted_length_bounded .unavailable log50 "x" 7 8).1,
   (persisted_length_bounded .unavailable log50 "x" 7 8).2 (by decide)⟩

/-- C6: any sequence of at most 50 appends to an initially empty log, made
at non-decreasing clock readings, yields exactly those entries, texts in
append order with their timestamps, and the timestamps are monotonically
non-decreasing. -/
theorem appends_preserve_order (mem0 : Mem0Client)
    (items : List (String × Nat × Nat)) (hlen : items.length ≤ 50)
    (hmono : (items.map (fun p => p.2.1)).Pairwise (· ≤ ·)) :
    appendAll mem0 [] items =
      items.map (fun p => { text := p.1, timestamp := p.2.1 }) ∧
    tsMonotone (appendAll mem0 [] items) := by
  have heq := appendAll_no_compaction mem0 items [] (by simpa using hlen)
  simp only [List.nil_append] at heq
  refine ⟨heq, ?_⟩
  rw [heq]
  unfold tsMonotone
  rw [List.pairwise_map]
  exact List.pairwise_map.mp hmono

/-- C6, witness at a concrete two-append sequence. -/
theorem appends_preserve_order_witness :
    appendAll .unavailable [] [("a", 1, 1), ("b", 2, 2)] =
      [{ text := "a", timestamp := 1 }, { text := "b", timestamp := 2 }] ∧
    tsMonotone (appendAll .unavailable [] [("a", 1, 1), ("b", 2, 2)]) :=
  appends_preserve_order .unavailable [("a", 1, 1), ("b", 2, 2)]
    (by decide) (by decide)

/-- C7 counterexample: loading is not total-to-{} over all file contents.
A file whose content is valid JSON of the wrong shape (for example the
JSON array `[]`) is returned as parsed instead of being treated as `{}`,
and a read error other than a JSON decode error (for example undecodable
bytes, which raise `UnicodeDecodeError`) is not caught and propagates. -/
theorem load_memory_file_counterexample :
    load_memory_file (.content (.ok (.arr []))) ≠ Except.ok (PyJson.obj []) ∧
    load_memory_file (.content .otherError) = Except.error () := by
  constructor
  · intro h
    simp only [load_memory_file] at h
    exact PyJson.noConfusion (Except.ok.inj h)
  · rfl

/-- C7 amended: a missing file and syntactically invalid JSON content both
load silently as `{}`; any successfully parsed JSON value, of whatever
shape, is returned as-is (only `json.JSONDecodeError` is caught, so other
read exceptions propagate). -/
theorem load_memory_file_amended (v : PyJson) :
    load_memory_file FileState.missing = Except.ok (PyJson.obj []) ∧
    load_memory_file (.content .jsonDecodeError) = Except.ok (PyJson.obj []) ∧
    load_memory_file (.content (.ok v)) = Except.ok v :=
  ⟨rfl, rfl, rfl⟩

/-- C8: an append that does not take the log length past 50 only appends
(every existing entry is left unchanged, no compaction), while an append
to a 50-entry log does not merely append: its result does not have length
51 (it is the 21-entry compacted log). -/
theorem below_threshold_append_pure (mem0 : Mem0Client) (log : List MemEntry)
    (text : String) (a c : Nat) :
    (log.length < 50 →
        add_memory mem0 log text a c = log ++ [{ text := text, timestamp := a }]) ∧
    (log.length = 50 → (add_memory mem0 log text a c).length ≠ log.length + 1) := by
  refine ⟨fun h => add_memory_small mem0 log text a c (by omega), fun h => ?_⟩
  rw [add_memory_length, if_pos (by omega)]
  omega

/-- C8, witness: an append to an empty log is a pure append, and the append
to a concrete 50-entry log changes the structure. -/
theorem below_threshold_append_pure_witness :
    add_memory .unavailable [] "a" 0 0 =
      [] ++ [({ text := "a", timestamp := 0 } : MemEntry)] ∧
    (add_memory .unavailable log50 "x" 7 8).length ≠ log50.length + 1 :=
  ⟨(below_threshold_append_pure .unavailable [] "a" 0 0).1 (by decide),
   (below_threshold_append_pure .unavailable log50 "x" 7 8).2 (by decide)⟩

/-- C9: the read path returns the fixed non-empty sentinel on an absent or
empty user log, and on a non-empty log it returns the texts of the last 5
entries in original order, each on its own line prefixed with "- ". -/
theorem summary_read_path (st : List (String × List MemEntry)) :
    (st.lookup user_name = none →
        get_memory_summary st = "No past memories yet.") ∧
    (st.lookup user_name = some [] →
        get_memory_summary st = "No past memories yet.") ∧
    ("No past memories yet." ≠ "") ∧
    (∀ log : List MemEntry, st.lookup user_name = some log → log ≠ [] →
        get_memory_summary st =
          pyJoin "\n" ((log.drop (log.length - 5)).map (fun m => "- " ++ m.text))) := by
  refine ⟨fun h => ?_, fun h => ?_, by decide, fun log h hne => ?_⟩
  · simp [get_memory_summary, h]
  · simp [get_memory_summary, h]
  · simp only [get_memory_summary, h, Option.getD_some]
    have hd : log.drop (log.length - 5) ≠ [] := by
      intro hnil
      have hl := congrArg List.length hnil
      simp only [List.length_drop, List.length_nil] at hl
      have hpos : 0 < log.length := List.length_pos.mpr hne
      omega
    rw [if_neg (by simpa [List.isEmpty_iff] using hd)]
    rw [List.map_map]
    rfl

/-- C9, witness: concrete absent, empty and one-entry states. -/
theorem summary_read_path_witness :
    get_memory_summary [] = "No past memories yet." ∧
    get_memory_summary [(user_name, [])] = "No past memories yet." ∧
    get_memory_summary [(user_name, [{ text := "hi", timestamp := 0 }])] =
      pyJoin "\n" (([({ text := "hi", timestamp := 0 } : MemEntry)].drop
        ([({ text := "hi", timestamp := 0 } : MemEntry)].length - 5)).map
        (fun m => "- " ++ m.text)) :=
  ⟨(summary_read_path []).1 rfl,
   (summary_read_path [(user_name, [])]).2.1 rfl,
   (summary_read_path [(user_name, [{ text := "hi", timestamp := 0 }])]).2.2.2
     [{ text := "hi", timestamp := 0 }] rfl (by decide)⟩

/-- C10: when a log is compacted, its old partition is everything except
the last 20 entries of the whole log, so a synthetic summary entry left at
the head by a previous compaction belongs to the old partition and its
text is folded into the space-joined summarizer input; and the >50 trigger
in the append path counts every entry, summary entries included. -/
theorem compaction_includes_prior_summary (mem0 : Mem0Client)
    (log : List MemEntry) (e : MemEntry) (tl : List MemEntry)
    (hlog : log = e :: tl) (hlen : 20 ≤ tl.length) :
    e ∈ old_part log ∧
    (∃ s, combined_text log = e.text ++ s) ∧
    (∀ (text : String) (a c : Nat), 50 < log.length + 1 →
        add_memory mem0 log text a c =
          summarize_old_memories mem0 c (log ++ [{ text := text, timestamp := a }])) := by
  subst hlog
  have hcount : (e :: tl).length - 20 = tl.length - 20 + 1 := by
    simp only [List.length_cons]
    omega
  refine ⟨?_, ?_, ?_⟩
  · unfold old_part
    rw [hcount, List.take_succ_cons]
    exact List.mem_cons_self e _
  · unfold combined_text old_part
    rw [hcount, List.take_succ_cons, List.map_cons]
    exact pyJoin_cons_ex " " e.text _
  · intro text a c h
    simp only [add_memory]
    split
    · rfl
    · next hb =>
        exfalso
        simp only [List.length_append, List.length_cons, List.length_nil] at h hb
        omega

/-- C10, witness: a concrete 51-entry log headed by an earlier summary
entry. -/
theorem compaction_includes_prior_summary_witness :
    ({ text := "Summary of past: earlier", timestamp := 0 } : MemEntry) ∈
      old_part c10log ∧
    (∃ s, combined_text c10log = "Summary of past: earlier" ++ s) ∧
    add_memory .unavailable c10log "x" 7 8 =
      summarize_old_memories .unavailable 8
        (c10log ++ [{ text := "x", timestamp := 7 }]) := by
  have h := compaction_includes_prior_summary .unavailable c10log
    { text := "Summary of past: earlier", timestamp := 0 }
    ((List.range 50).map (fun i => { text := "t" ++ toString i, timestamp := i + 1 }))
    rfl (by decide)
  exact ⟨h.1, h.2.1, h.2.2 "x" 7 8 (by decide)⟩

end KhinsLLM
